import Mathlib

/-!
# Server Monitor (`main.go`): shallow embedding and verification

The Go program keeps a list of servers, probes each of them on every tick and
keeps a per-server counter `pingSinceSeconds`.  The Bubble Tea handlers
`Update` and `View` are embedded as functions on an explicit `model` value.

Modelling conventions.

* `int`, `int64` are `Int`.  The only arithmetic in `main.go` is
  `pingSinceSeconds += pingInterval` under the guard
  `pingSinceSeconds < maxPingSince`, which cannot leave the `int64` range.
* A Go run-time panic (indexing a slice out of range) is `Except.error`.
* A `tea.Cmd` is a closure; the closures that `main.go` builds are represented
  by the data they capture (`Cmd.ping index srv`, `Cmd.tick`).
* What the `huh` form does with a message is not part of `main.go`; the result
  of the call `m.addServerForm.Update(msg)` is an argument (`FormStep`) of
  `Update`.  The `lipgloss`/`table` renderers are arguments (`Ui`) of `View`,
  and the TCP dial is an argument of `pingServer`.
* `fmt.Sscanf(s, "%d", &port)` and `fmt.Sprintf("%d", x)` are Go library calls;
  `Sscanf` follows the scanning steps of Go's `fmt` package for the `%d` verb
  on a 64-bit `int`, and `Sprintf` is the decimal rendering `toString`.
-/

namespace ServerMonitor

/-! ## Constants and data model -/

/-- The Go type `mode` with its two constants. -/
inductive mode where
  | modeViewing
  | modeAdding
deriving DecidableEq

/-- The constant `pingInterval` (seconds). -/
def pingInterval : Int := 5

/-- The constant `pingTimeout` (seconds). -/
def pingTimeout : Int := 2

/-- The constant `maxPingSince` (seconds). -/
def maxPingSince : Int := 9999

/-- The constant `appTitle`. -/
def appTitle : String := "Server Monitor"

/-- The constant `statusOnline`. -/
def statusOnline : String := "●"

/-- The constant `statusOffline`. -/
def statusOffline : String := "○"

/-- The Go struct `server`. -/
structure server where
  Name : String
  IP : String
  Port : Int
  pingSinceSeconds : Int
deriving DecidableEq

/-- The type `huh.FormState`. -/
inductive FormState where
  | StateNormal
  | StateCompleted
  | StateAborted
deriving DecidableEq

/-- The part of `*huh.Form` that `main.go` reads: the field `State`.  The three
inputs of the form are bound by pointer to `formName`, `formIP`, `formPort` of
the model, so their text lives in the model. -/
structure Form where
  State : FormState
deriving DecidableEq

/-- The Go struct `model`.  `serverList` is the `table.Model`, of which only the
rows set by `SetRows` are kept.  The three style fields are assigned once in
`initialModel` and never written again; they appear as `Style` below. -/
structure model where
  addServerForm : Form
  serverList : List (List String)
  servers : List server
  focusIndex : Int
  mode : mode
  formName : String
  formIP : String
  formPort : String
deriving DecidableEq

/-- The messages `Update` distinguishes: `tickMsg`, `pingResultMsg`,
`tea.KeyMsg` (by its `String()`), and any other message. -/
inductive Msg where
  | tickMsg
  | pingResultMsg (serverIndex : Int) (online : Bool)
  | KeyMsg (key : String)
  | otherMsg (tag : Nat)
deriving DecidableEq

/-- The commands `main.go` hands to `tea.Batch` or returns on their own.
`ping index srv` is the closure built in the `tickMsg` case, which captures
the loop index and a copy `srv` of `m.servers[i]`; `tick` is `tick()`;
`Quit` is `tea.Quit`; `formCmd` is a command produced by the `huh` form. -/
inductive Cmd where
  | ping (index : Int) (srv : server)
  | tick
  | Quit
  | formCmd (tag : Nat)
deriving DecidableEq

/-- The `tea.Cmd` returned by `Update`: `nil`, one command, or
`tea.Batch(cmds...)` of a list of commands. -/
inductive TeaCmd where
  | nil
  | one (cmd : Cmd)
  | Batch (cmds : List Cmd)
deriving DecidableEq

/-- A Go run-time panic: `index out of range [i] with length n`. -/
inductive Panic where
  | indexOutOfRange (i : Int) (n : Nat)
deriving DecidableEq

/-- The outcome of the call `m.addServerForm.Update(msg)`: the form returned,
the text the form has written through the pointers bound to `formName`,
`formIP` and `formPort`, and the returned command. -/
structure FormStep where
  form : Form
  formName : String
  formIP : String
  formPort : String
  cmd : TeaCmd
deriving DecidableEq

deriving instance DecidableEq for Except

/-! ## `fmt.Sscanf(s, "%d", &port)` -/

/-- The read limit `hugeWid = 1 << 30` of a scan state. -/
def hugeWid : Nat := 2 ^ 30

/-- The function `isSpace` of Go's `fmt` scanner (its table `space`). -/
def isSpace (r : Char) : Bool :=
  let n := r.toNat
  if n ≥ 65536 then false
  else
    (0x0009 ≤ n && n ≤ 0x000d) || n == 0x0020 || n == 0x0085 || n == 0x00a0 ||
    n == 0x1680 || (0x2000 ≤ n && n ≤ 0x200a) || (0x2028 ≤ n && n ≤ 0x2029) ||
    n == 0x202f || n == 0x205f || n == 0x3000

/-- The method `SkipSpace` with `nlIsSpace = false` (as for `Sscanf`): skips
spaces, fails on a newline (`none` is the error "unexpected newline"). -/
def SkipSpace : List Char → Option (List Char)
  | [] => some []
  | r :: rest =>
    if r = '\r' ∧ rest.head? = some '\n' then SkipSpace rest
    else if r = '\n' then none
    else if isSpace r then SkipSpace rest
    else some (r :: rest)

/-- Membership in the digit set of `getBase` for the verb `d`, the constant
`decimalDigits = "0123456789"`. -/
def isDigitRune (r : Char) : Bool :=
  "0123456789".data.contains r

/-- The accumulation `n = n*10 + (c - '0')` of `strconv.ParseUint` over a
string of decimal digits. -/
def digitsValue (s : List Char) : Nat :=
  s.foldl (fun n c => n * 10 + (c.toNat - '0'.toNat)) 0

/-- The function `strconv.ParseUint(s, 10, 64)`: `none` is a syntax or range
error. -/
def ParseUint (s : List Char) : Option Nat :=
  if s = [] then none
  else if s.all Char.isDigit then
    let v := digitsValue s
    if v < 2 ^ 64 then some v else none
  else none

/-- The function `strconv.ParseInt(s, 10, 64)`: `none` is a syntax or range
error. -/
def ParseInt (s : List Char) : Option Int :=
  match s with
  | [] => none
  | c :: rest =>
    let neg : Bool := c = '-'
    let s1 := if c = '+' ∨ c = '-' then rest else c :: rest
    match ParseUint s1 with
    | none => none
    | some un =>
      if !neg && un ≥ 2 ^ 63 then none
      else if neg && un > 2 ^ 63 then none
      else some (if neg then -(un : Int) else (un : Int))

/-- The method `scanInt('d', 64)` after the `SkipSpace` of `doScanf`: skip
spaces, require input (`notEOF`), accept one sign, collect the run of digit
runes (`scanNumber`, at least one), and convert the token with `ParseInt`.
`none` is any scan error. -/
def scanInt (input : List Char) : Option Int :=
  match SkipSpace input with
  | none => none
  | some [] => none
  | some (c :: rest) =>
    let sign : List Char := if c = '+' ∨ c = '-' then [c] else []
    let s2 : List Char := if c = '+' ∨ c = '-' then rest else c :: rest
    let tok := s2.takeWhile isDigitRune
    if tok = [] then none else ParseInt (sign ++ tok)

/-- The statement `fmt.Sscanf(str, "%d", &port)`: the value of `port`
afterwards.  On a scan error the variable keeps its old value. -/
def Sscanf (str : String) (port : Int) : Int :=
  match scanInt (str.data.take hugeWid) with
  | some v => v
  | none => port

/-- The call `fmt.Sprintf("%d", x)`. -/
def Sprintf (x : Int) : String := toString x

/-! ## `initialModel`, `Update` -/

/-- The method `generateAddForm`: a fresh form, in `StateNormal`. -/
def generateAddForm (_m : model) : Form := { State := FormState.StateNormal }

/-- The function `initialModel`. -/
def initialModel : model :=
  let initialmodel : model :=
    { addServerForm := { State := FormState.StateNormal }
      serverList := []
      servers := []
      focusIndex := 0
      mode := mode.modeViewing
      formName := ""
      formIP := ""
      formPort := "" }
  { initialmodel with addServerForm := generateAddForm initialmodel }

/-- The method `Init`. -/
def Init (_m : model) : TeaCmd := TeaCmd.one Cmd.tick

/-- The loop `for i := range m.servers` of the `tickMsg` case: `rest` is the
part of the slice not yet visited, `i` the current index, `cmds` the slice of
commands built so far. -/
def tickLoop : List server → Nat → List Cmd → List Cmd
  | [], _, cmds => cmds
  | srv :: rest, i, cmds => tickLoop rest (i + 1) (cmds ++ [Cmd.ping (i : Int) srv])

/-- The read `s[i]` of a Go slice with a run-time index. -/
def loadServer (s : List server) (i : Int) : Except Panic server :=
  if 0 ≤ i then
    match s.get? i.toNat with
    | some srv => Except.ok srv
    | none => Except.error (Panic.indexOutOfRange i s.length)
  else Except.error (Panic.indexOutOfRange i s.length)

/-- The write `s[i].pingSinceSeconds = v` on a Go slice with a run-time
index. -/
def storePingSince (s : List server) (i : Int) (v : Int) : Except Panic (List server) :=
  if 0 ≤ i ∧ i < (s.length : Int) then
    Except.ok (s.modify (fun srv => { srv with pingSinceSeconds := v }) i.toNat)
  else Except.error (Panic.indexOutOfRange i s.length)

/-- The method `Update`.  `huh` is the outcome of `m.addServerForm.Update(msg)`,
used only where the code makes that call. -/
def Update (huh : FormStep) (m : model) (msg : Msg) : Except Panic (model × TeaCmd) :=
  match msg with
  | Msg.tickMsg =>
    let cmds := tickLoop m.servers 0 []
    let cmds := cmds ++ [Cmd.tick]
    Except.ok (m, TeaCmd.Batch cmds)
  | Msg.pingResultMsg serverIndex online =>
    if serverIndex < (m.servers.length : Int) then
      if online then
        match storePingSince m.servers serverIndex 0 with
        | Except.error e => Except.error e
        | Except.ok servers => Except.ok ({ m with servers := servers }, TeaCmd.nil)
      else
        match loadServer m.servers serverIndex with
        | Except.error e => Except.error e
        | Except.ok srv =>
          if srv.pingSinceSeconds < maxPingSince then
            match storePingSince m.servers serverIndex (srv.pingSinceSeconds + pingInterval) with
            | Except.error e => Except.error e
            | Except.ok servers => Except.ok ({ m with servers := servers }, TeaCmd.nil)
          else Except.ok (m, TeaCmd.nil)
    else Except.ok (m, TeaCmd.nil)
  | _ =>
    match m.mode with
    | mode.modeViewing =>
      match msg with
      | Msg.KeyMsg key =>
        if key = "a" then
          let m1 := { m with mode := mode.modeAdding, formName := "", formIP := "", formPort := "" }
          let m2 := { m1 with addServerForm := generateAddForm m1 }
          Except.ok (m2, TeaCmd.one (Cmd.formCmd 0))
        else if key = "q" ∨ key = "ctrl+c" then Except.ok (m, TeaCmd.one Cmd.Quit)
        else Except.ok (m, TeaCmd.nil)
      | _ => Except.ok (m, TeaCmd.nil)
    | mode.modeAdding =>
      let m1 := { m with addServerForm := huh.form, formName := huh.formName,
                         formIP := huh.formIP, formPort := huh.formPort }
      if m1.addServerForm.State = FormState.StateCompleted then
        let port := Sscanf m1.formPort 0
        let m2 := { m1 with servers := m1.servers ++
                      [server.mk m1.formName m1.formIP port 0] }
        let m3 := { m2 with addServerForm := generateAddForm m2 }
        let m4 := { m3 with mode := mode.modeViewing }
        Except.ok (m4, huh.cmd)
      else Except.ok (m1, huh.cmd)

/-! ## `pingServer` and the commands built on a tick -/

/-- The function `pingServer`, its first result.  `dial host port` says
whether `net.DialTimeout("tcp", net.JoinHostPort(host, port), pingTimeout s)`
returned without error. -/
def pingServer (dial : String → String → Bool) (srv : server) : Bool :=
  dial srv.IP (Sprintf srv.Port)

/-- Running a command that `main.go` built itself: the `ping` closure returns
its `pingResultMsg`, the `tick` command returns `tickMsg` once the interval
has passed.  Commands of the libraries are not run here. -/
def runCmd (dial : String → String → Bool) : Cmd → Option Msg
  | Cmd.ping index srv => some (Msg.pingResultMsg index (pingServer dial srv))
  | Cmd.tick => some Msg.tickMsg
  | Cmd.Quit => none
  | Cmd.formCmd _ => none

/-! ## `View` -/

/-- The three style fields of the model. -/
inductive Style where
  | onlineStyle
  | offlineStyle
  | tableStyle
deriving DecidableEq

/-- The renderers `View` calls: `Render style text` is `style.Render(text)`,
`tableView rows` is `m.serverList.View()` for a table holding `rows`,
`formView form` is `m.addServerForm.View()`. -/
structure Ui where
  Render : Style → String → String
  tableView : List (List String) → String
  formView : Form → String

/-- The style and the glyph `View` chooses for one server (the variable
`status` and the style whose `Render` is called on it). -/
def rowStatus (srv : server) : Style × String :=
  if srv.pingSinceSeconds > 0 then (Style.offlineStyle, statusOffline)
  else (Style.onlineStyle, statusOnline)

/-- The variable `pingSince` of `View` for one server. -/
def rowPingSince (srv : server) : String :=
  if srv.pingSinceSeconds > 0 then Sprintf srv.pingSinceSeconds else "0"

/-- The `table.Row` appended for one server. -/
def viewRow (ui : Ui) (srv : server) : List String :=
  let styledStatus := ui.Render (rowStatus srv).1 (rowStatus srv).2
  [srv.Name, srv.IP, Sprintf srv.Port, styledStatus, rowPingSince srv]

/-- The loop `for _, srv := range m.servers` of `View`. -/
def viewLoop (ui : Ui) : List server → List (List String) → List (List String)
  | [], rows => rows
  | srv :: rest, rows => viewLoop ui rest (rows ++ [viewRow ui srv])

/-- The method `View`: the model afterwards (`SetRows` writes the table) and
the returned string. -/
def View (ui : Ui) (m : model) : model × String :=
  match m.mode with
  | mode.modeViewing =>
    let rows := viewLoop ui m.servers []
    let m1 := { m with serverList := rows }
    (m1, appTitle ++ "\n\n" ++ ui.Render Style.tableStyle (ui.tableView m1.serverList)
          ++ "\n\nPress 'a' to add a server, 'q' to quit.")
  | mode.modeAdding =>
    (m, appTitle ++ "\n\n" ++ ui.formView m.addServerForm
          ++ "\n\nPress 'Enter' to submit, 'Esc' to cancel.")

/-! ## Runs of the state machine -/

/-- Handling a sequence of messages one after the other, each paired with
what the form does with it; stops at the first panic. -/
def run (m : model) : List (FormStep × Msg) → Except Panic model
  | [] => Except.ok m
  | (huh, msg) :: rest =>
    match Update huh m msg with
    | Except.error e => Except.error e
    | Except.ok (m1, _) => run m1 rest

/-- The states the program can be in: those a run from `initialModel`
arrives at. -/
def Reachable (m : model) : Prop :=
  ∃ events : List (FormStep × Msg), run initialModel events = Except.ok m

/-- The field `pingSinceSeconds` of the server at position `i`, when there is
one. -/
def pingSinceAt (m : model) (i : Nat) : Option Int :=
  (m.servers[i]?).map server.pingSinceSeconds

/-! ## Concrete values used in the examples -/

/-- A form outcome that changes nothing and is not completed. -/
def idleStep : FormStep :=
  { form := { State := FormState.StateNormal }, formName := "", formIP := "", formPort := "",
    cmd := TeaCmd.nil }

/-- A form outcome: the form completed with the given texts. -/
def submitStep (name ip port : String) : FormStep :=
  { form := { State := FormState.StateCompleted }, formName := name, formIP := ip,
    formPort := port, cmd := TeaCmd.nil }

/-- The registry of the scenario: one endpoint `svc1` at `127.0.0.1:9999`. -/
def svc1Model : model :=
  { initialModel with servers := [server.mk "svc1" "127.0.0.1" 9999 0] }

/-- A registry with two endpoints, the second one down for 15 seconds. -/
def twoModel : model :=
  { initialModel with
    servers := [server.mk "svc1" "127.0.0.1" 9999 0, server.mk "db" "10.0.0.2" 5432 15] }

/-- Renderers that add no styling, for the examples. -/
def plainUi : Ui :=
  { Render := fun _ text => text
    tableView := fun rows => String.intercalate "\n" (rows.map (String.intercalate " "))
    formView := fun _ => "" }

/-- The two-endpoint registry after a successful probe result for index 1. -/
def twoModelUp : model :=
  { initialModel with
    servers := [server.mk "svc1" "127.0.0.1" 9999 0, server.mk "db" "10.0.0.2" 5432 0] }

/-- The two-endpoint registry after a failed probe result for index 1. -/
def twoModelDown : model :=
  { initialModel with
    servers := [server.mk "svc1" "127.0.0.1" 9999 0, server.mk "db" "10.0.0.2" 5432 20] }

/-- A failed probe result for index `i`. -/
def failed (i : Int) : FormStep × Msg := (idleStep, Msg.pingResultMsg i false)

/-! ## Applying a probe result: the basic facts -/

/-- Rewriting one counter to the value it already has changes nothing. -/
theorem modify_same_counter (l : List server) (i : Nat) (srv : server)
    (h : l[i]? = some srv) :
    l.modify (fun s => { s with pingSinceSeconds := srv.pingSinceSeconds }) i = l := by
  apply List.ext_getElem?
  intro j
  rw [List.getElem?_modify]
  by_cases hij : i = j
  · subst hij
    simp [h]
  · simp [hij]

/-- A read at a position that holds `srv` returns it. -/
theorem loadServer_valid (l : List server) (i : Nat) (srv : server) (h : l[i]? = some srv) :
    loadServer l (i : Int) = Except.ok srv := by
  simp [loadServer, h]

/-- A write at a position inside the slice replaces that counter. -/
theorem storePingSince_valid (l : List server) (i : Nat) (v : Int) (h : i < l.length) :
    storePingSince l (i : Int) v =
      Except.ok (l.modify (fun s => { s with pingSinceSeconds := v }) i) := by
  simp [storePingSince, h]

/-- The `pingResultMsg` case at a position that holds `srv`: the counter there
becomes `0` on success, grows by `pingInterval` on a failure while it is below
`maxPingSince`, and stays otherwise; nothing else in the model changes. -/
theorem Update_ping_valid (huh : FormStep) (m : model) (i : Nat) (online : Bool) (srv : server)
    (h : m.servers[i]? = some srv) :
    Update huh m (Msg.pingResultMsg (i : Int) online) =
      Except.ok ({ m with servers := m.servers.modify (fun s => { s with pingSinceSeconds :=
        if online then 0
        else if srv.pingSinceSeconds < maxPingSince then srv.pingSinceSeconds + pingInterval
        else srv.pingSinceSeconds }) i }, TeaCmd.nil) := by
  have hlen : i < m.servers.length := by
    rcases Nat.lt_or_ge i m.servers.length with hlt | hge
    · exact hlt
    · rw [List.getElem?_eq_none hge] at h
      cases h
  have hlt : ((i : Int) < (m.servers.length : Int)) := by exact_mod_cast hlen
  cases online with
  | true =>
    simp only [Update, hlt, if_true, storePingSince_valid _ _ _ hlen]
  | false =>
    by_cases hmax : srv.pingSinceSeconds < maxPingSince
    · simp [Update, hlt, loadServer_valid _ _ _ h, hmax, storePingSince_valid _ _ _ hlen]
    · simp [Update, hlt, loadServer_valid _ _ _ h, hmax, modify_same_counter _ _ _ h]

/-- The `pingResultMsg` case at an index at or beyond the length of the slice:
the guard `serverIndex < len(m.servers)` fails and the model is returned as it
is. -/
theorem Update_ping_stale (huh : FormStep) (m : model) (i : Int) (online : Bool)
    (h : (m.servers.length : Int) ≤ i) :
    Update huh m (Msg.pingResultMsg i online) = Except.ok (m, TeaCmd.nil) := by
  have hn : ¬ (i < (m.servers.length : Int)) := by omega
  simp [Update, hn]

/-- The `pingResultMsg` case at a negative index: the guard lets it through
and the slice access panics. -/
theorem Update_ping_negative (huh : FormStep) (m : model) (i : Int) (online : Bool)
    (h : i < 0) :
    Update huh m (Msg.pingResultMsg i online) =
      Except.error (Panic.indexOutOfRange i m.servers.length) := by
  have hlt : i < (m.servers.length : Int) := by omega
  have hneg : ¬ (0 ≤ i) := by omega
  cases online <;> simp [Update, hlt, loadServer, storePingSince, hneg]

/-- Every non-negative index either holds a server or lies at or beyond the
length. -/
theorem index_cases (l : List server) (i : Nat) :
    (∃ srv, l[i]? = some srv) ∨ (l.length ≤ i ∧ l[i]? = none) := by
  rcases Nat.lt_or_ge i l.length with hlt | hge
  · exact Or.inl ⟨l[i], List.getElem?_eq_getElem hlt⟩
  · exact Or.inr ⟨hge, List.getElem?_eq_none hge⟩

/-! ## Successful probe results -/

/-- C3: for every registry and every index `i` valid in it
(`0 ≤ i < len(m.servers)`), `Update` on a successful probe result for `i`
returns normally and the endpoint at `i` then has `pingSinceSeconds = 0`,
whatever the counter was before. -/
theorem success_resets_downtime (huh : FormStep) (m : model) (i : Int)
    (h0 : 0 ≤ i) (hlt : i < (m.servers.length : Int)) :
    ∃ m1, Update huh m (Msg.pingResultMsg i true) = Except.ok (m1, TeaCmd.nil) ∧
      pingSinceAt m1 i.toNat = some 0 := by
  lift i to ℕ using h0
  have hlen : i < m.servers.length := by exact_mod_cast hlt
  have hsrv : m.servers[i]? = some m.servers[i] := List.getElem?_eq_getElem hlen
  refine ⟨_, Update_ping_valid huh m i true _ hsrv, ?_⟩
  simp [pingSinceAt, List.getElem?_modify, hsrv]

/-- C3, at the two-endpoint registry: a success for index 1 (down for 15
seconds) resets it. -/
theorem success_resets_downtime_witness :
    (0 : Int) ≤ 1 ∧ (1 : Int) < (twoModel.servers.length : Int) ∧
    ∃ m1, Update idleStep twoModel (Msg.pingResultMsg 1 true) = Except.ok (m1, TeaCmd.nil) ∧
      pingSinceAt m1 (1 : Int).toNat = some 0 :=
  ⟨by decide, by decide, success_resets_downtime idleStep twoModel 1 (by decide) (by decide)⟩

/-- C4, as stated, fails: on the one-endpoint registry a probe result with
the index `-1`, which is outside `0 .. len-1`, passes the guard
`serverIndex < len(m.servers)` and the slice access panics, for a failed
result as for a successful one; `Update` does not return. -/
theorem negative_index_panics :
    Update idleStep svc1Model (Msg.pingResultMsg (-1) false) =
      Except.error (Panic.indexOutOfRange (-1) 1) ∧
    Update idleStep svc1Model (Msg.pingResultMsg (-1) true) =
      Except.error (Panic.indexOutOfRange (-1) 1) := by
  constructor <;> rfl

/-- C4, amended: for every registry and every probe result (success or
failure) whose index is at or beyond the length of the registry, that is, an
index that no longer exists in it, `Update` returns normally, with no command,
and the whole model (so the registry: its length and every field of every
endpoint) is unchanged. -/
theorem stale_result_discarded (huh : FormStep) (m : model) (i : Int) (online : Bool)
    (h : (m.servers.length : Int) ≤ i) :
    Update huh m (Msg.pingResultMsg i online) = Except.ok (m, TeaCmd.nil) := by
  have hn : ¬ (i < (m.servers.length : Int)) := by omega
  simp [Update, hn]

/-- C4 amended, at the one-endpoint registry with index 1. -/
theorem stale_result_discarded_witness :
    (svc1Model.servers.length : Int) ≤ 1 ∧
    Update idleStep svc1Model (Msg.pingResultMsg 1 false) = Except.ok (svc1Model, TeaCmd.nil) :=
  ⟨by decide, stale_result_discarded idleStep svc1Model 1 false (by decide)⟩

/-- A successful probe result for a non-negative index, applied twice: the
second application returns the model the first one returned. -/
theorem success_twice_nonneg (huh huh2 : FormStep) (m : model) (i : Int) (h0 : 0 ≤ i) :
    ∃ m1, Update huh m (Msg.pingResultMsg i true) = Except.ok (m1, TeaCmd.nil) ∧
      Update huh2 m1 (Msg.pingResultMsg i true) = Except.ok (m1, TeaCmd.nil) ∧
      pingSinceAt m1 i.toNat = (m.servers[i.toNat]?).map (fun _ => 0) := by
  lift i to ℕ using h0
  rcases index_cases m.servers i with ⟨srv, hsrv⟩ | ⟨hge, hnone⟩
  · refine ⟨_, Update_ping_valid huh m i true srv hsrv, ?_, ?_⟩
    · have hsrv1 : (m.servers.modify (fun s => { s with pingSinceSeconds := 0 }) i)[i]? =
          some { srv with pingSinceSeconds := 0 } := by
        simp [List.getElem?_modify, hsrv]
      have h2 := Update_ping_valid huh2
        { m with servers := m.servers.modify (fun s => { s with pingSinceSeconds := 0 }) i }
        i true _ hsrv1
      simp only [if_true] at h2 ⊢
      rw [h2, List.modify_modify_eq]
      rfl
    · simp [pingSinceAt, List.getElem?_modify, hsrv]
  · have hge1 : (m.servers.length : Int) ≤ (i : Int) := by exact_mod_cast hge
    refine ⟨m, Update_ping_stale huh m i true hge1, Update_ping_stale huh2 m i true hge1, ?_⟩
    simp [pingSinceAt, hnone]

/-- C7: applying the same successful probe result twice in a row gives exactly
the model that applying it once gives.  For every index: whenever the first
application returns a model `m1`, the second one returns `m1` again, and in
`m1` the endpoint at that index (when the registry has one) has
`pingSinceSeconds = 0`; and the first application does return for every
non-negative index, valid or not. -/
theorem success_idempotent (huh huh2 : FormStep) (m : model) (i : Int) :
    (0 ≤ i → ∃ m1, Update huh m (Msg.pingResultMsg i true) = Except.ok (m1, TeaCmd.nil)) ∧
    (∀ m1 cmd, Update huh m (Msg.pingResultMsg i true) = Except.ok (m1, cmd) →
      Update huh2 m1 (Msg.pingResultMsg i true) = Except.ok (m1, TeaCmd.nil) ∧
      pingSinceAt m1 i.toNat = (m.servers[i.toNat]?).map (fun _ => 0)) := by
  constructor
  · intro h0
    obtain ⟨m1, h1, _⟩ := success_twice_nonneg huh huh2 m i h0
    exact ⟨m1, h1⟩
  · intro m1 cmd hret
    rcases lt_or_le i 0 with hneg | h0
    · rw [Update_ping_negative huh m i true hneg] at hret
      cases hret
    · obtain ⟨m2, h1, h2, h3⟩ := success_twice_nonneg huh huh2 m i h0
      rw [h1] at hret
      simp only [Except.ok.injEq, Prod.mk.injEq] at hret
      rw [← hret.1]
      exact ⟨h2, h3⟩

/-- C7, at the two-endpoint registry with index 1 (down for 15 seconds): the
first application returns the registry with both endpoints at `0`, and so
does the second. -/
theorem success_idempotent_witness :
    (0 : Int) ≤ 1 ∧
    (∃ m1, Update idleStep twoModel (Msg.pingResultMsg 1 true) = Except.ok (m1, TeaCmd.nil)) ∧
    Update idleStep twoModel (Msg.pingResultMsg 1 true) = Except.ok (twoModelUp, TeaCmd.nil) ∧
    Update idleStep twoModelUp (Msg.pingResultMsg 1 true) = Except.ok (twoModelUp, TeaCmd.nil) ∧
    pingSinceAt twoModelUp (1 : Int).toNat = (twoModel.servers[(1 : Int).toNat]?).map (fun _ => 0) :=
  ⟨by decide, (success_idempotent idleStep idleStep twoModel 1).1 (by decide), by decide,
    (success_idempotent idleStep idleStep twoModel 1).2 twoModelUp TeaCmd.nil (by decide)⟩

/-! ## The frame of a probe result -/

/-- On a probe result for a non-negative index (valid or not, success or
failure) `Update` returns normally with a model that differs from the old
one at most in `servers`; the new registry has the same length; at every
position the name, address and port are the old ones; at every position other
than the index the whole endpoint is the old one; and after a failed result
the counter at the index is not below the old one. -/
theorem probe_frame_nonneg (huh : FormStep) (m : model) (i : Int) (online : Bool)
    (h0 : 0 ≤ i) :
    ∃ m1, Update huh m (Msg.pingResultMsg i online) = Except.ok (m1, TeaCmd.nil) ∧
      m1 = { m with servers := m1.servers } ∧
      m1.mode = m.mode ∧
      m1.servers.length = m.servers.length ∧
      m1.servers.map (fun s => (s.Name, s.IP, s.Port)) =
        m.servers.map (fun s => (s.Name, s.IP, s.Port)) ∧
      (∀ j : Nat, (j : Int) ≠ i → m1.servers[j]? = m.servers[j]?) ∧
      (online = false → ∀ p q, pingSinceAt m i.toNat = some p →
        pingSinceAt m1 i.toNat = some q → p ≤ q) := by
  lift i to ℕ using h0
  rcases index_cases m.servers i with ⟨srv, hsrv⟩ | ⟨hge, _⟩
  · refine ⟨_, Update_ping_valid huh m i online srv hsrv, rfl, rfl, by simp, ?_, ?_, ?_⟩
    · apply List.ext_getElem?
      intro j
      simp only [List.getElem?_map, List.getElem?_modify]
      cases m.servers[j]? with
      | none => rfl
      | some a => by_cases hij : i = j <;> simp [hij]
    · intro j hj
      have hij : i ≠ j := fun e => hj (by rw [e])
      simp [List.getElem?_modify, hij]
    · intro hon p q hp hq
      subst hon
      simp only [pingSinceAt, Int.toNat_ofNat, hsrv, Option.map_some', Option.some.injEq] at hp
      simp only [pingSinceAt, Int.toNat_ofNat, List.getElem?_modify, hsrv, Option.map_some',
        Option.some.injEq, if_true, Bool.false_eq_true, if_false, Functor.map] at hq
      subst hp
      have h5 : pingInterval = 5 := rfl
      split at hq <;> omega
  · have hge1 : (m.servers.length : Int) ≤ (i : Int) := by exact_mod_cast hge
    refine ⟨m, Update_ping_stale huh m i online hge1, rfl, rfl, rfl, rfl, fun _ _ => rfl, ?_⟩
    intro _ p q hp hq
    rw [hp] at hq
    cases hq
    exact le_refl _

/-- C10: applying a probe result (any index, success or failure) changes at
most the `pingSinceSeconds` of the endpoint at the result's index.  Whenever
`Update` returns a model `m1`, it differs from the old one at most in
`servers` (so the mode is the old one); the registry has the same length; at
every position name, address and port are the old ones; at every position
other than the index the whole endpoint is the old one; and after a failed
result the counter at the index is not below the old one.  `Update` does
return for every non-negative index. -/
theorem probe_result_frame (huh : FormStep) (m : model) (i : Int) (online : Bool) :
    (0 ≤ i → ∃ m1, Update huh m (Msg.pingResultMsg i online) = Except.ok (m1, TeaCmd.nil)) ∧
    (∀ m1 cmd, Update huh m (Msg.pingResultMsg i online) = Except.ok (m1, cmd) →
      m1 = { m with servers := m1.servers } ∧
      m1.mode = m.mode ∧
      m1.servers.length = m.servers.length ∧
      m1.servers.map (fun s => (s.Name, s.IP, s.Port)) =
        m.servers.map (fun s => (s.Name, s.IP, s.Port)) ∧
      (∀ j : Nat, (j : Int) ≠ i → m1.servers[j]? = m.servers[j]?) ∧
      (online = false → ∀ p q, pingSinceAt m i.toNat = some p →
        pingSinceAt m1 i.toNat = some q → p ≤ q)) := by
  constructor
  · intro h0
    obtain ⟨m1, h1, _⟩ := probe_frame_nonneg huh m i online h0
    exact ⟨m1, h1⟩
  · intro m1 cmd hret
    rcases lt_or_le i 0 with hneg | h0
    · rw [Update_ping_negative huh m i online hneg] at hret
      cases hret
    · obtain ⟨m2, h1, hframe⟩ := probe_frame_nonneg huh m i online h0
      rw [h1] at hret
      simp only [Except.ok.injEq, Prod.mk.injEq] at hret
      rw [← hret.1]
      exact hframe

/-- C10, at the two-endpoint registry: a failed result for index 1 takes its
counter from 15 to 20 and leaves the rest as it was. -/
theorem probe_result_frame_witness :
    (0 : Int) ≤ 1 ∧
    (∃ m1, Update idleStep twoModel (Msg.pingResultMsg 1 false) = Except.ok (m1, TeaCmd.nil)) ∧
    Update idleStep twoModel (Msg.pingResultMsg 1 false) = Except.ok (twoModelDown, TeaCmd.nil) ∧
    twoModelDown = { twoModel with servers := twoModelDown.servers } ∧
    twoModelDown.mode = twoModel.mode ∧
    twoModelDown.servers.length = twoModel.servers.length ∧
    twoModelDown.servers.map (fun s => (s.Name, s.IP, s.Port)) =
      twoModel.servers.map (fun s => (s.Name, s.IP, s.Port)) ∧
    (∀ j : Nat, (j : Int) ≠ 1 → twoModelDown.servers[j]? = twoModel.servers[j]?) ∧
    (false = false → ∀ p q, pingSinceAt twoModel (1 : Int).toNat = some p →
      pingSinceAt twoModelDown (1 : Int).toNat = some q → p ≤ q) :=
  ⟨by decide, (probe_result_frame idleStep twoModel 1 false).1 (by decide), by decide,
    (probe_result_frame idleStep twoModel 1 false).2 twoModelDown TeaCmd.nil (by decide)⟩

/-! ## Consecutive failed probe results -/

/-- Runs compose: handling `xs ++ ys` is handling `xs` and then `ys`. -/
theorem run_append (m m1 : model) (xs ys : List (FormStep × Msg))
    (h : run m xs = Except.ok m1) : run m (xs ++ ys) = run m1 ys := by
  induction xs generalizing m with
  | nil =>
    simp only [run, Except.ok.injEq] at h
    subst h
    rfl
  | cons x xs ih =>
    obtain ⟨huh, msg⟩ := x
    simp only [run, List.cons_append] at h ⊢
    cases hU : Update huh m msg with
    | error e => simp [hU] at h
    | ok r =>
      obtain ⟨m2, c⟩ := r
      simp only [hU] at h ⊢
      exact ih m2 h

/-- What the code does on consecutive failures: if the counter at a valid
position `i` is `min (5 * k) 10000`, then after `n` failed probe results for
`i` it is `min (5 * (k + n)) 10000`, and nothing else in the model has
changed.  The counter climbs in steps of `pingInterval` through `9995` to
`10000` and stops there: the guard `pingSinceSeconds < maxPingSince` still
lets the step from `9995` through. -/
theorem run_failed (i : Nat) (n : Nat) : ∀ (k : Nat) (m : model),
    pingSinceAt m i = some (min (5 * (k : Int)) 10000) →
    run m (List.replicate n (failed (i : Int))) =
      Except.ok { m with servers := (m.servers.modify
        (fun s => { s with pingSinceSeconds := min (5 * ((k + n : Nat) : Int)) 10000 }) i) } := by
  induction n with
  | zero =>
    intro k m h
    simp only [pingSinceAt] at h
    cases hs : m.servers[i]? with
    | none => simp [hs] at h
    | some srv =>
      simp only [hs, Option.map_some', Option.some.injEq] at h
      simp only [List.replicate, run, Nat.add_zero, ← h, modify_same_counter _ _ _ hs]
  | succ n ih =>
    intro k m h
    simp only [pingSinceAt] at h
    cases hs : m.servers[i]? with
    | none => simp [hs] at h
    | some srv =>
      simp only [hs, Option.map_some', Option.some.injEq] at h
      have hU := Update_ping_valid idleStep m i false srv hs
      simp only [Bool.false_eq_true, if_false] at hU
      have hv : (if srv.pingSinceSeconds < maxPingSince then srv.pingSinceSeconds + pingInterval
          else srv.pingSinceSeconds) = min (5 * ((k + 1 : Nat) : Int)) 10000 := by
        have h5 : pingInterval = 5 := rfl
        have hM : maxPingSince = 9999 := rfl
        rw [h5, hM, h]
        split <;> omega
      rw [hv] at hU
      have hnext : pingSinceAt { m with servers := (m.servers.modify
          (fun s => { s with pingSinceSeconds := min (5 * ((k + 1 : Nat) : Int)) 10000 }) i) } i =
          some (min (5 * ((k + 1 : Nat) : Int)) 10000) := by
        simp [pingSinceAt, List.getElem?_modify, hs]
      have hrec := ih (k + 1) _ hnext
      simp only [List.replicate, run, failed, hU]
      simp only [failed] at hrec
      rw [hrec, List.modify_modify_eq]
      have hk : k + 1 + n = k + (n + 1) := by omega
      rw [hk]
      rfl

/-- The registry of the scenario once `svc1` has been registered through the
form: the three form fields still hold the submitted text. -/
theorem run_register_svc1 :
    run initialModel [(idleStep, Msg.KeyMsg "a"),
        (submitStep "svc1" "127.0.0.1" "9999", Msg.otherMsg 0)] =
      Except.ok { svc1Model with formName := "svc1", formIP := "127.0.0.1", formPort := "9999" } := by
  decide

/-- C1, evaluated where it fails: starting from `pingSinceSeconds = 0`, the
counter of `svc1` after 1999 consecutive failed results is `9995`, as claimed,
but after 2000 it is `10000`, which is not `min (2000 * pingInterval)
maxPingSince = 9999`. -/
theorem two_thousand_failures_overshoot :
    (∃ m1, run svc1Model (List.replicate 1999 (failed 0)) = Except.ok m1 ∧
      pingSinceAt m1 0 = some (min (1999 * pingInterval) maxPingSince)) ∧
    (∃ m2, run svc1Model (List.replicate 2000 (failed 0)) = Except.ok m2 ∧
      pingSinceAt m2 0 = some 10000 ∧
      pingSinceAt m2 0 ≠ some (min (2000 * pingInterval) maxPingSince)) := by
  have h0 : pingSinceAt svc1Model 0 = some (min (5 * ((0 : Nat) : Int)) 10000) := by decide
  constructor
  · refine ⟨_, run_failed 0 1999 0 svc1Model h0, ?_⟩
    decide
  · refine ⟨_, run_failed 0 2000 0 svc1Model h0, ?_, ?_⟩ <;> decide

/-- C2, evaluated where it fails: the state reached from `initialModel` by
registering one endpoint and then handling 2000 failed probe results for it
holds an endpoint whose `pingSinceSeconds` is `10000`, above `maxPingSince`. -/
theorem ceiling_exceeded_reachable :
    ∃ m, Reachable m ∧ ∃ srv ∈ m.servers,
      srv.pingSinceSeconds = 10000 ∧ maxPingSince < srv.pingSinceSeconds := by
  have h0 : pingSinceAt
      { svc1Model with formName := "svc1", formIP := "127.0.0.1", formPort := "9999" } 0 =
      some (min (5 * ((0 : Nat) : Int)) 10000) := by decide
  have hrun := run_failed 0 2000 0 _ h0
  refine ⟨_, ⟨_, (run_append _ _ _ _ run_register_svc1).trans hrun⟩, ?_⟩
  refine ⟨server.mk "svc1" "127.0.0.1" 9999 10000, ?_, rfl, by decide⟩
  decide

/-! ## Registering an endpoint -/

/-- The completed-form branch of `Update`: in `modeAdding`, on a message that
is neither a tick nor a probe result, when the form reports
`StateCompleted`, one server built from the three form fields is appended,
the form is replaced by a fresh one and the mode returns to `modeViewing`. -/
theorem Update_completed (huh : FormStep) (m : model) (msg : Msg)
    (hmsg : msg ≠ Msg.tickMsg) (hping : ∀ i o, msg ≠ Msg.pingResultMsg i o)
    (hmode : m.mode = mode.modeAdding)
    (hdone : huh.form.State = FormState.StateCompleted) :
    Update huh m msg = Except.ok
      ({ m with addServerForm := { State := FormState.StateNormal },
                formName := huh.formName, formIP := huh.formIP, formPort := huh.formPort,
                servers := m.servers ++
                  [server.mk huh.formName huh.formIP (Sscanf huh.formPort 0) 0],
                mode := mode.modeViewing }, huh.cmd) := by
  cases msg with
  | tickMsg => exact absurd rfl hmsg
  | pingResultMsg i o => exact absurd rfl (hping i o)
  | KeyMsg key => simp [Update, hmode, hdone, generateAddForm]
  | otherMsg tag => simp [Update, hmode, hdone, generateAddForm]

/-- C5: the completed-form branch of `Update` appends exactly one endpoint at
the end of the registry: the length grows by one, the first `len` entries are
the old registry unchanged (position and every field, `pingSinceSeconds`
included), and the new last entry carries the submitted name and address and
has `pingSinceSeconds = 0`. -/
theorem register_appends (huh : FormStep) (m : model) (msg : Msg)
    (hmsg : msg ≠ Msg.tickMsg) (hping : ∀ i o, msg ≠ Msg.pingResultMsg i o)
    (hmode : m.mode = mode.modeAdding)
    (hdone : huh.form.State = FormState.StateCompleted) :
    ∃ m1 srv, Update huh m msg = Except.ok (m1, huh.cmd) ∧
      m1.servers.length = m.servers.length + 1 ∧
      m1.servers.take m.servers.length = m.servers ∧
      m1.servers.drop m.servers.length = [srv] ∧
      m1.servers[m.servers.length]? = some srv ∧
      srv.Name = huh.formName ∧ srv.IP = huh.formIP ∧ srv.pingSinceSeconds = 0 := by
  refine ⟨_, server.mk huh.formName huh.formIP (Sscanf huh.formPort 0) 0,
    Update_completed huh m msg hmsg hping hmode hdone, ?_, ?_, ?_, ?_, rfl, rfl, rfl⟩
  · simp
  · simp
  · simp
  · simp

/-- C5, at the two-endpoint registry in `modeAdding`: submitting `cache` at
`10.0.0.3` with port text `6379`. -/
theorem register_appends_witness :
    Msg.otherMsg 0 ≠ Msg.tickMsg ∧ (∀ i o, Msg.otherMsg 0 ≠ Msg.pingResultMsg i o) ∧
    ({ twoModel with mode := mode.modeAdding } : model).mode = mode.modeAdding ∧
    (submitStep "cache" "10.0.0.3" "6379").form.State = FormState.StateCompleted ∧
    ∃ m1 srv, Update (submitStep "cache" "10.0.0.3" "6379")
        { twoModel with mode := mode.modeAdding } (Msg.otherMsg 0) =
          Except.ok (m1, (submitStep "cache" "10.0.0.3" "6379").cmd) ∧
      m1.servers.length = ({ twoModel with mode := mode.modeAdding } : model).servers.length + 1 ∧
      m1.servers.take ({ twoModel with mode := mode.modeAdding } : model).servers.length =
        ({ twoModel with mode := mode.modeAdding } : model).servers ∧
      m1.servers.drop ({ twoModel with mode := mode.modeAdding } : model).servers.length = [srv] ∧
      m1.servers[({ twoModel with mode := mode.modeAdding } : model).servers.length]? = some srv ∧
      srv.Name = (submitStep "cache" "10.0.0.3" "6379").formName ∧
      srv.IP = (submitStep "cache" "10.0.0.3" "6379").formIP ∧ srv.pingSinceSeconds = 0 :=
  ⟨by decide, by intro i o; exact Msg.noConfusion, rfl, rfl,
    register_appends (submitStep "cache" "10.0.0.3" "6379")
      { twoModel with mode := mode.modeAdding } (Msg.otherMsg 0)
      (by decide) (by intro i o; exact Msg.noConfusion) rfl rfl⟩

/-! ## The tick -/

/-- The loop of the `tickMsg` case appends one `ping` closure per server,
tagged with the position of that server, in order. -/
theorem tickLoop_eq (l : List server) : ∀ (i : Nat) (cmds : List Cmd),
    tickLoop l i cmds = cmds ++ (l.enumFrom i).map (fun p => Cmd.ping (p.1 : Int) p.2) := by
  induction l with
  | nil => intro i cmds; simp [tickLoop]
  | cons srv rest ih => intro i cmds; simp [tickLoop, ih]

/-- C6: on a `tickMsg` with `K` servers in the registry, `Update` returns the
model unchanged together with `tea.Batch` of `K` probe commands followed by
exactly one command scheduling the next tick.  The command at position `i` is
the closure holding the index `i` and the copy of `m.servers[i]` taken at the
tick; whenever it is run, it dials that copy's address and port and returns a
`pingResultMsg` tagged `i`, whatever the registry holds by then. -/
theorem tick_dispatch (huh : FormStep) (m : model) :
    ∃ cmds : List Cmd,
      Update huh m Msg.tickMsg = Except.ok (m, TeaCmd.Batch (cmds ++ [Cmd.tick])) ∧
      cmds.length = m.servers.length ∧
      (∀ i : Nat, cmds[i]? = (m.servers[i]?).map (fun srv => Cmd.ping (i : Int) srv)) ∧
      (∀ (dial : String → String → Bool) (i : Int) (srv : server),
        runCmd dial (Cmd.ping i srv) =
          some (Msg.pingResultMsg i (dial srv.IP (Sprintf srv.Port)))) := by
  refine ⟨m.servers.enum.map (fun p => Cmd.ping (p.1 : Int) p.2), ?_, by simp, ?_, ?_⟩
  · simp [Update, tickLoop_eq, List.enum]
  · intro i
    rw [List.getElem?_map, List.getElem?_enum]
    cases m.servers[i]? <;> rfl
  · intro dial i srv
    rfl

/-! ## `View` -/

/-- The loop of `View` appends one row per server, in order. -/
theorem viewLoop_eq (ui : Ui) (l : List server) : ∀ rows : List (List String),
    viewLoop ui l rows = rows ++ l.map (viewRow ui) := by
  induction l with
  | nil => intro rows; simp [viewLoop]
  | cons srv rest ih => intro rows; simp [viewLoop, ih]

/-- C8: in `modeViewing`, for a registry whose counters are non-negative (as
the data model has them), `View` changes nothing in the model but the table
rows; the rows are one per endpoint in registry order; each row is name,
address, port, the styled status and the decimal rendering of
`pingSinceSeconds` (`"0"` when it is zero); the status is the online glyph in
the online style exactly when `pingSinceSeconds = 0` and the offline glyph in
the offline style exactly when it is positive. -/
theorem view_rows (ui : Ui) (m : model) (hmode : m.mode = mode.modeViewing)
    (hnonneg : ∀ srv ∈ m.servers, 0 ≤ srv.pingSinceSeconds) :
    (View ui m).1 = { m with serverList := (View ui m).1.serverList } ∧
    (View ui m).1.servers = m.servers ∧
    (View ui m).1.serverList = m.servers.map (viewRow ui) ∧
    ∀ srv ∈ m.servers,
      viewRow ui srv = [srv.Name, srv.IP, Sprintf srv.Port,
        ui.Render (rowStatus srv).1 (rowStatus srv).2, Sprintf srv.pingSinceSeconds] ∧
      (rowStatus srv = (Style.onlineStyle, statusOnline) ↔ srv.pingSinceSeconds = 0) ∧
      (rowStatus srv = (Style.offlineStyle, statusOffline) ↔ 0 < srv.pingSinceSeconds) ∧
      (srv.pingSinceSeconds = 0 → Sprintf srv.pingSinceSeconds = "0") := by
  refine ⟨?_, ?_, ?_, ?_⟩
  · simp [View, hmode]
  · simp [View, hmode]
  · simp [View, hmode, viewLoop_eq]
  · intro srv hsrv
    have h0 := hnonneg srv hsrv
    have hz : Sprintf 0 = "0" := by decide
    by_cases hpos : srv.pingSinceSeconds > 0
    · refine ⟨by simp [viewRow, rowPingSince, hpos], ?_, ?_, ?_⟩
      · simp only [rowStatus, hpos, if_true]
        constructor
        · intro h; exact absurd h (by decide)
        · intro h; omega
      · simp [rowStatus, hpos]
      · intro h; omega
    · have hzero : srv.pingSinceSeconds = 0 := by omega
      refine ⟨by simp [viewRow, rowPingSince, hzero, hz], ?_, ?_, ?_⟩
      · simp [rowStatus, hzero]
      · simp [rowStatus, hzero]
      · intro _; rw [hzero]; exact hz

/-- C8, at the two-endpoint registry (one endpoint online, one down for 15
seconds) with renderers that add no styling. -/
theorem view_rows_witness :
    twoModel.mode = mode.modeViewing ∧
    (∀ srv ∈ twoModel.servers, 0 ≤ srv.pingSinceSeconds) ∧
    (View plainUi twoModel).1 =
      { twoModel with serverList := (View plainUi twoModel).1.serverList } ∧
    (View plainUi twoModel).1.servers = twoModel.servers ∧
    (View plainUi twoModel).1.serverList = twoModel.servers.map (viewRow plainUi) ∧
    ∀ srv ∈ twoModel.servers,
      viewRow plainUi srv = [srv.Name, srv.IP, Sprintf srv.Port,
        plainUi.Render (rowStatus srv).1 (rowStatus srv).2, Sprintf srv.pingSinceSeconds] ∧
      (rowStatus srv = (Style.onlineStyle, statusOnline) ↔ srv.pingSinceSeconds = 0) ∧
      (rowStatus srv = (Style.offlineStyle, statusOffline) ↔ 0 < srv.pingSinceSeconds) ∧
      (srv.pingSinceSeconds = 0 → Sprintf srv.pingSinceSeconds = "0") :=
  ⟨rfl, by decide, view_rows plainUi twoModel rfl (by decide)⟩

/-! ## Parsing the port text -/

/-- The ten decimal digit characters: what the scanner and the converter see
in each of them. -/
theorem digitChar_facts (k : Nat) (hk : k < 10) :
    (Nat.digitChar k).isDigit = true ∧ isDigitRune (Nat.digitChar k) = true ∧
    isSpace (Nat.digitChar k) = false ∧ Nat.digitChar k ≠ '+' ∧ Nat.digitChar k ≠ '-' ∧
    Nat.digitChar k ≠ '\r' ∧ Nat.digitChar k ≠ '\n' ∧
    (Nat.digitChar k).toNat - '0'.toNat = k := by
  interval_cases k <;> decide

/-- The digits `Nat.toDigitsCore` puts in front of its accumulator: a
non-empty run of decimal digit characters whose value is the number. -/
theorem toDigitsCore_spec : ∀ (fuel n : Nat) (acc : List Char), n < fuel →
    ∃ ds, Nat.toDigitsCore 10 fuel n acc = ds ++ acc ∧ ds ≠ [] ∧
      (∀ c ∈ ds, ∃ k, k < 10 ∧ c = Nat.digitChar k) ∧ digitsValue ds = n := by
  intro fuel
  induction fuel with
  | zero => intro n acc h; omega
  | succ fuel ih =>
    intro n acc h
    have hmod : n % 10 < 10 := Nat.mod_lt _ (by decide)
    by_cases hdiv : n / 10 = 0
    · refine ⟨[Nat.digitChar (n % 10)], by simp [Nat.toDigitsCore, hdiv], by simp, ?_, ?_⟩
      · intro c hc
        simp only [List.mem_singleton] at hc
        exact ⟨n % 10, hmod, hc⟩
      · have hv := (digitChar_facts (n % 10) hmod).2.2.2.2.2.2.2
        simp only [digitsValue, List.foldl, hv]
        omega
    · have hlt : n / 10 < fuel := by omega
      obtain ⟨ds, hds, _, hall, hval⟩ := ih (n / 10) (Nat.digitChar (n % 10) :: acc) hlt
      refine ⟨ds ++ [Nat.digitChar (n % 10)], by simp [Nat.toDigitsCore, hdiv, hds], by simp,
        ?_, ?_⟩
      · intro c hc
        rcases List.mem_append.mp hc with h1 | h1
        · exact hall c h1
        · simp only [List.mem_singleton] at h1
          exact ⟨n % 10, hmod, h1⟩
      · have hv := (digitChar_facts (n % 10) hmod).2.2.2.2.2.2.2
        simp only [digitsValue] at hval
        simp only [digitsValue, List.foldl_append, List.foldl, hval, hv]
        omega

/-- The run of digit runes the scanner collects from digits followed by text
that does not start with a digit rune is the digits. -/
theorem takeWhile_digits (ds junk : List Char)
    (hall : ∀ c ∈ ds, ∃ k, k < 10 ∧ c = Nat.digitChar k)
    (hjunk : ∀ c, junk.head? = some c → isDigitRune c = false) :
    (ds ++ junk).takeWhile isDigitRune = ds := by
  induction ds with
  | nil =>
    cases junk with
    | nil => rfl
    | cons c rest => simp [List.takeWhile, hjunk c rfl]
  | cons d ds ih =>
    obtain ⟨k, hk, rfl⟩ := hall d (List.mem_cons_self _ _)
    have hd := (digitChar_facts k hk).2.1
    have hrec := ih (fun c hc => hall c (List.mem_cons_of_mem _ hc))
    simp [List.takeWhile_cons, hd, hrec]

/-- The scanner on a non-empty run of decimal digits of value below `2^63`,
followed by text that does not start with a decimal digit: the value. -/
theorem scanInt_decimal (ds junk : List Char) (hne : ds ≠ [])
    (hall : ∀ c ∈ ds, ∃ k, k < 10 ∧ c = Nat.digitChar k)
    (hjunk : ∀ c, junk.head? = some c → isDigitRune c = false)
    (hval : digitsValue ds < 2 ^ 63) :
    scanInt (ds ++ junk) = some (digitsValue ds : Int) := by
  cases ds with
  | nil => exact absurd rfl hne
  | cons d ds =>
    obtain ⟨k, hk, hd⟩ := hall d (List.mem_cons_self _ _)
    obtain ⟨hdig, _, hsp, hplus, hminus, hcr, hnl, _⟩ := digitChar_facts k hk
    rw [← hd] at hdig hsp hplus hminus hcr hnl
    have htw := takeWhile_digits (d :: ds) junk hall hjunk
    have hdigits : (d :: ds).all Char.isDigit = true := by
      rw [List.all_eq_true]
      intro c hc
      obtain ⟨j, hj, rfl⟩ := hall c hc
      exact (digitChar_facts j hj).1
    have h64 : digitsValue (d :: ds) < 18446744073709551616 := by omega
    have h63 : ¬ (9223372036854775808 ≤ digitsValue (d :: ds)) := by omega
    simp only [List.cons_append] at htw
    simp [scanInt, SkipSpace, hcr, hnl, hsp, hplus, hminus, htw, ParseInt, ParseUint, hdigits,
      h64, h63]

/-- The scanner on a sign followed by a non-empty run of decimal digits of
value below `2^63` and then text that does not start with a decimal digit:
the value, negated after a minus sign. -/
theorem scanInt_signed (neg : Bool) (ds junk : List Char) (hne : ds ≠ [])
    (hall : ∀ c ∈ ds, ∃ k, k < 10 ∧ c = Nat.digitChar k)
    (hjunk : ∀ c, junk.head? = some c → isDigitRune c = false)
    (hval : digitsValue ds < 2 ^ 63) :
    scanInt ((if neg then '-' else '+') :: (ds ++ junk)) =
      some (if neg then -(digitsValue ds : Int) else (digitsValue ds : Int)) := by
  have htw := takeWhile_digits ds junk hall hjunk
  have hdigits : ds.all Char.isDigit = true := by
    rw [List.all_eq_true]
    intro c hc
    obtain ⟨j, hj, rfl⟩ := hall c hc
    exact (digitChar_facts j hj).1
  have h64 : digitsValue ds < 18446744073709551616 := by omega
  have h63 : ¬ (9223372036854775808 ≤ digitsValue ds) := by omega
  have h63b : ¬ (9223372036854775808 < digitsValue ds) := by omega
  have hsm : isSpace '-' = false := by decide
  have hsp : isSpace '+' = false := by decide
  cases neg with
  | true =>
    simp [scanInt, SkipSpace, hsm, htw, hne, ParseInt, ParseUint, hdigits, h64, h63b]
  | false =>
    simp [scanInt, SkipSpace, hsp, htw, hne, ParseInt, ParseUint, hdigits, h64, h63]

/-- The head of a list survives a cut to a positive length. -/
theorem head?_take_pos (l : List Char) (k : Nat) (hk : 0 < k) :
    (l.take k).head? = l.head? := by
  cases l with
  | nil => simp
  | cons a rest =>
    obtain ⟨j, rfl⟩ := Nat.exists_eq_succ_of_ne_zero (Nat.pos_iff_ne_zero.mp hk)
    rfl

/-- The read limit of the scanner leaves a short beginning of the text whole
and does not change which character follows it. -/
theorem take_hugeWid (xs junk : List Char) (h : xs.length ≤ 20) :
    ∃ junk1, (xs ++ junk).take hugeWid = xs ++ junk1 ∧ junk1.head? = junk.head? := by
  have hW : hugeWid = 1073741824 := by decide
  refine ⟨junk.take (hugeWid - xs.length), ?_, head?_take_pos _ _ (by omega)⟩
  rw [List.take_append_eq_append_take, List.take_of_length_le (by omega)]

/-- The decimal rendering of a number below `2^63`: at most 19 decimal digit
characters, at least one, whose value is the number. -/
theorem repr_digits (n : Nat) (hn : n < 2 ^ 63) :
    (Nat.toDigits 10 n) ≠ [] ∧ (Nat.toDigits 10 n).length ≤ 19 ∧
    (∀ c ∈ Nat.toDigits 10 n, ∃ k, k < 10 ∧ c = Nat.digitChar k) ∧
    digitsValue (Nat.toDigits 10 n) = n := by
  obtain ⟨ds, hds, hne, hall, hval⟩ := toDigitsCore_spec (n + 1) n [] (Nat.lt_succ_self n)
  have hlen : (Nat.toDigitsCore 10 (n + 1) n []).length ≤ 19 :=
    Nat.toDigitsCore_length 10 (by decide) (n + 1) n 19 (by omega) (by decide)
  simp only [List.append_nil] at hds
  have hdig : Nat.toDigits 10 n = ds := hds
  rw [hds] at hlen
  rw [hdig]
  exact ⟨hne, hlen, hall, hval⟩

/-- The statement `fmt.Sscanf(s, "%d", &port)` on text that starts with the
decimal rendering of a number below `2^63`, followed by nothing or by a
character that is not a decimal digit: `port` becomes that number. -/
theorem Sscanf_decimal (n : Nat) (junk : String) (port : Int) (hn : n < 2 ^ 63)
    (hjunk : ∀ c, junk.data.head? = some c → isDigitRune c = false) :
    Sscanf (toString n ++ junk) port = (n : Int) := by
  have hdata : (toString n ++ junk).data = Nat.toDigits 10 n ++ junk.data := rfl
  obtain ⟨hne, hlen, hall, hval⟩ := repr_digits n hn
  obtain ⟨junk1, htake, hhead⟩ := take_hugeWid (Nat.toDigits 10 n) junk.data (by omega)
  have hscan := scanInt_decimal _ junk1 hne hall (by rw [hhead]; exact hjunk)
    (by rw [hval]; exact hn)
  simp only [Sscanf, hdata, htake, hscan, hval]

/-- The statement `fmt.Sscanf(s, "%d", &port)` on a sign, the decimal
rendering of a number below `2^63`, and then nothing or a character that is
not a decimal digit: `port` becomes that number, negated after a minus
sign. -/
theorem Sscanf_signed (neg : Bool) (n : Nat) (junk : String) (port : Int) (hn : n < 2 ^ 63)
    (hjunk : ∀ c, junk.data.head? = some c → isDigitRune c = false) :
    Sscanf ((if neg then "-" else "+") ++ toString n ++ junk) port =
      (if neg then -(n : Int) else (n : Int)) := by
  have hdata : ((if neg then "-" else "+") ++ toString n ++ junk).data =
      ((if neg then '-' else '+') :: Nat.toDigits 10 n) ++ junk.data := by
    cases neg <;> rfl
  obtain ⟨hne, hlen, hall, hval⟩ := repr_digits n hn
  obtain ⟨junk1, htake, hhead⟩ :=
    take_hugeWid ((if neg then '-' else '+') :: Nat.toDigits 10 n) junk.data
      (by simp only [List.length_cons]; omega)
  have hscan := scanInt_signed neg _ junk1 hne hall (by rw [hhead]; exact hjunk)
    (by rw [hval]; exact hn)
  simp only [List.cons_append] at htake hdata
  simp only [Sscanf, hdata, htake, hscan, hval]

/-- The first character of a text survives the read limit of the scanner. -/
theorem take_hugeWid_cons (c : Char) (rest : List Char) :
    (c :: rest).take hugeWid = c :: rest.take (hugeWid - 1) := by
  have : hugeWid = (hugeWid - 1) + 1 := by decide
  rw [this, List.take_succ_cons]
  rfl

/-- The statement `fmt.Sscanf(s, "%d", &port)` on text whose first character
is neither white space, a sign nor a decimal digit: a scan error, `port`
keeps its value. -/
theorem Sscanf_no_number (c : Char) (rest : List Char) (port : Int)
    (hsp : isSpace c = false) (hplus : c ≠ '+') (hminus : c ≠ '-')
    (hdig : isDigitRune c = false) :
    Sscanf (String.mk (c :: rest)) port = port := by
  have hcr : c ≠ '\r' := by
    intro h
    rw [h] at hsp
    exact absurd hsp (by decide)
  have hnl : c ≠ '\n' := by
    intro h
    rw [h] at hsp
    exact absurd hsp (by decide)
  simp [Sscanf, take_hugeWid_cons, scanInt, SkipSpace, hcr, hnl, hsp, hplus, hminus,
    List.takeWhile_cons, hdig]

/-- The statement `fmt.Sscanf(s, "%d", &port)` on a sign followed by a
character that is not a decimal digit: a scan error, `port` keeps its
value. -/
theorem Sscanf_sign_no_number (neg : Bool) (c : Char) (rest : List Char) (port : Int)
    (hdig : isDigitRune c = false) :
    Sscanf (String.mk ((if neg then '-' else '+') :: c :: rest)) port = port := by
  have hsm : isSpace '-' = false := by decide
  have hsp : isSpace '+' = false := by decide
  have h2 : (c :: rest).take (hugeWid - 1) = c :: rest.take (hugeWid - 2) := by
    have : hugeWid - 1 = (hugeWid - 2) + 1 := by decide
    rw [this, List.take_succ_cons]
  cases neg with
  | true =>
    simp [Sscanf, take_hugeWid_cons, h2, scanInt, SkipSpace, hsm, List.takeWhile_cons, hdig]
  | false =>
    simp [Sscanf, take_hugeWid_cons, h2, scanInt, SkipSpace, hsp, List.takeWhile_cons, hdig]

/-- The statement `fmt.Sscanf(s, "%d", &port)` on text that starts with a
newline: the scan error "unexpected newline", `port` keeps its value. -/
theorem Sscanf_newline (rest : List Char) (port : Int) :
    Sscanf (String.mk ('\n' :: rest)) port = port := by
  simp [Sscanf, take_hugeWid_cons, scanInt, SkipSpace]

/-- The statement `fmt.Sscanf(s, "%d", &port)` skips a leading white-space
character other than a newline (the text being within the read limit). -/
theorem Sscanf_skip_space (w : Char) (text : String) (port : Int)
    (hw : isSpace w = true) (hnl : w ≠ '\n') (hlen : text.length < hugeWid) :
    Sscanf (String.mk (w :: text.data)) port = Sscanf text port := by
  have hlen1 : text.data.length < hugeWid := hlen
  have ht1 : (w :: text.data).take hugeWid = w :: text.data :=
    List.take_of_length_le (by simp only [List.length_cons]; omega)
  have ht2 : text.data.take hugeWid = text.data := List.take_of_length_le (by omega)
  have hskip : SkipSpace (w :: text.data) = SkipSpace text.data := by
    by_cases hc : w = '\r' ∧ text.data.head? = some '\n'
    · simp only [SkipSpace, hc, and_self, if_true]
    · simp only [SkipSpace, hc, if_false, hnl, hw, if_true]
  simp only [Sscanf, ht1, ht2, scanInt, hskip]

/-- C9, as stated, fails: registering with the port text `80abc` stores port
`80`, and with the port text `70000` stores port `70000`; neither is `0`. -/
theorem port_text_not_coerced_to_zero :
    Update (submitStep "web" "10.0.0.1" "80abc") { initialModel with mode := mode.modeAdding }
        (Msg.otherMsg 0) =
      Except.ok ({ initialModel with formName := "web", formIP := "10.0.0.1", formPort := "80abc",
                                     servers := [server.mk "web" "10.0.0.1" 80 0] }, TeaCmd.nil) ∧
    Update (submitStep "web" "10.0.0.1" "70000") { initialModel with mode := mode.modeAdding }
        (Msg.otherMsg 0) =
      Except.ok ({ initialModel with formName := "web", formIP := "10.0.0.1", formPort := "70000",
                                     servers := [server.mk "web" "10.0.0.1" 70000 0] }, TeaCmd.nil) := by
  constructor <;> decide

/-- C9, amended: the port text is scanned by `fmt.Sscanf(text, "%d", &port)`
with `port` starting at `0`, and whatever the text is, the completed form
registers the endpoint with the scanned port.  The scan gives `0` for empty
text, for a lone sign, for text that starts with a newline, and for text
whose first character, or whose first character after a leading sign, is
neither white space, a sign nor a decimal digit.  A leading white-space
character other than a newline is skipped.  Text that starts with the decimal
rendering of a number `n` below `2^63`, alone or followed by a character that
is not a decimal digit, gives `n`; after a leading `+` it gives `n`, after a
leading `-` it gives `-n`.  So a well-formed port in `1..65535` gives that
number, `80abc` gives `80`, `80_` gives `80`, `-5` gives `-5`, and there is no
range check (`70000` gives `70000`). -/
theorem port_text_scanned (huh : FormStep) (m : model) (msg : Msg)
    (n : Nat) (junk : String) (c : Char) (rest : List Char) (w : Char) (text : String)
    (hmsg : msg ≠ Msg.tickMsg) (hping : ∀ i o, msg ≠ Msg.pingResultMsg i o)
    (hmode : m.mode = mode.modeAdding)
    (hdone : huh.form.State = FormState.StateCompleted)
    (hn : n < 2 ^ 63)
    (hjunk : ∀ a, junk.data.head? = some a → isDigitRune a = false)
    (hsp : isSpace c = false) (hplus : c ≠ '+') (hminus : c ≠ '-')
    (hdig : isDigitRune c = false)
    (hw : isSpace w = true) (hwnl : w ≠ '\n') (hlen : text.length < hugeWid) :
    (∃ m1, Update huh m msg = Except.ok (m1, huh.cmd) ∧
      m1.servers = m.servers ++
        [server.mk huh.formName huh.formIP (Sscanf huh.formPort 0) 0]) ∧
    Sscanf "" 0 = 0 ∧ Sscanf "+" 0 = 0 ∧ Sscanf "-" 0 = 0 ∧
    Sscanf (String.mk ('\n' :: rest)) 0 = 0 ∧
    Sscanf (String.mk (c :: rest)) 0 = 0 ∧
    Sscanf (String.mk ('+' :: c :: rest)) 0 = 0 ∧
    Sscanf (String.mk ('-' :: c :: rest)) 0 = 0 ∧
    Sscanf (String.mk (w :: text.data)) 0 = Sscanf text 0 ∧
    Sscanf (toString n) 0 = (n : Int) ∧
    Sscanf (toString n ++ junk) 0 = (n : Int) ∧
    Sscanf ("+" ++ toString n ++ junk) 0 = (n : Int) ∧
    Sscanf ("-" ++ toString n ++ junk) 0 = -(n : Int) := by
  refine ⟨⟨_, Update_completed huh m msg hmsg hping hmode hdone, rfl⟩, by decide, by decide,
    by decide, Sscanf_newline rest 0, Sscanf_no_number c rest 0 hsp hplus hminus hdig,
    Sscanf_sign_no_number false c rest 0 hdig, Sscanf_sign_no_number true c rest 0 hdig,
    Sscanf_skip_space w text 0 hw hwnl hlen, ?_, Sscanf_decimal n junk 0 hn hjunk,
    Sscanf_signed false n junk 0 hn hjunk, Sscanf_signed true n junk 0 hn hjunk⟩
  have h := Sscanf_decimal n "" 0 hn (by intro a ha; cases ha)
  rwa [String.append_empty] at h

/-- C9 amended, at the number `8080` followed by `/tcp`, at the text `x1`, and
at a leading blank before `443`, with `x1` registered into the two-endpoint
registry (port `0`). -/
theorem port_text_scanned_witness :
    Msg.otherMsg 0 ≠ Msg.tickMsg ∧ (∀ i o, Msg.otherMsg 0 ≠ Msg.pingResultMsg i o) ∧
    ({ twoModel with mode := mode.modeAdding } : model).mode = mode.modeAdding ∧
    (submitStep "cache" "10.0.0.3" "x1").form.State = FormState.StateCompleted ∧
    8080 < 2 ^ 63 ∧
    (∀ a, "/tcp".data.head? = some a → isDigitRune a = false) ∧
    isSpace 'x' = false ∧ 'x' ≠ '+' ∧ 'x' ≠ '-' ∧ isDigitRune 'x' = false ∧
    isSpace ' ' = true ∧ ' ' ≠ '\n' ∧ "443".length < hugeWid ∧
    (∃ m1, Update (submitStep "cache" "10.0.0.3" "x1") { twoModel with mode := mode.modeAdding }
        (Msg.otherMsg 0) = Except.ok (m1, (submitStep "cache" "10.0.0.3" "x1").cmd) ∧
      m1.servers = ({ twoModel with mode := mode.modeAdding } : model).servers ++
        [server.mk (submitStep "cache" "10.0.0.3" "x1").formName
          (submitStep "cache" "10.0.0.3" "x1").formIP
          (Sscanf (submitStep "cache" "10.0.0.3" "x1").formPort 0) 0]) ∧
    Sscanf "" 0 = 0 ∧ Sscanf "+" 0 = 0 ∧ Sscanf "-" 0 = 0 ∧
    Sscanf (String.mk ('\n' :: ['1'])) 0 = 0 ∧
    Sscanf (String.mk ('x' :: ['1'])) 0 = 0 ∧
    Sscanf (String.mk ('+' :: 'x' :: ['1'])) 0 = 0 ∧
    Sscanf (String.mk ('-' :: 'x' :: ['1'])) 0 = 0 ∧
    Sscanf (String.mk (' ' :: "443".data)) 0 = Sscanf "443" 0 ∧
    Sscanf (toString 8080) 0 = ((8080 : Nat) : Int) ∧
    Sscanf (toString 8080 ++ "/tcp") 0 = ((8080 : Nat) : Int) ∧
    Sscanf ("+" ++ toString 8080 ++ "/tcp") 0 = ((8080 : Nat) : Int) ∧
    Sscanf ("-" ++ toString 8080 ++ "/tcp") 0 = -((8080 : Nat) : Int) :=
  ⟨by decide, by intro i o; exact Msg.noConfusion, rfl, rfl, by decide,
    by intro a ha; cases ha; decide, by decide, by decide, by decide, by decide,
    by decide, by decide, by decide,
    port_text_scanned (submitStep "cache" "10.0.0.3" "x1")
      { twoModel with mode := mode.modeAdding } (Msg.otherMsg 0) 8080 "/tcp" 'x' ['1'] ' ' "443"
      (by decide) (by intro i o; exact Msg.noConfusion) rfl rfl (by decide)
      (by intro a ha; cases ha; decide) (by decide) (by decide) (by decide) (by decide)
      (by decide) (by decide) (by decide)⟩

/-! ## What holds in every reachable state -/

/-- One step of `Update` keeps every counter a multiple of `pingInterval`
between `0` and `10000`. -/
theorem Update_counter_bounds (huh : FormStep) (m m1 : model) (msg : Msg) (cmd : TeaCmd)
    (hinv : ∀ srv ∈ m.servers, 0 ≤ srv.pingSinceSeconds ∧ srv.pingSinceSeconds ≤ 10000 ∧
      srv.pingSinceSeconds % 5 = 0)
    (hstep : Update huh m msg = Except.ok (m1, cmd)) :
    ∀ srv ∈ m1.servers, 0 ≤ srv.pingSinceSeconds ∧ srv.pingSinceSeconds ≤ 10000 ∧
      srv.pingSinceSeconds % 5 = 0 := by
  cases msg with
  | tickMsg =>
    simp only [Update, Except.ok.injEq, Prod.mk.injEq] at hstep
    rw [← hstep.1]
    exact hinv
  | pingResultMsg i online =>
    rcases lt_or_le i 0 with hneg | h0
    · rw [Update_ping_negative huh m i online hneg] at hstep
      cases hstep
    · lift i to ℕ using h0
      rcases index_cases m.servers i with ⟨old, hold⟩ | ⟨hge, _⟩
      · rw [Update_ping_valid huh m i online old hold] at hstep
        simp only [Except.ok.injEq, Prod.mk.injEq] at hstep
        rw [← hstep.1]
        intro srv hsrv
        obtain ⟨j, hj⟩ := List.mem_iff_getElem?.mp hsrv
        simp only [List.getElem?_modify] at hj
        cases hm : m.servers[j]? with
        | none => simp [hm] at hj
        | some a =>
          have ha := hinv a (List.mem_iff_getElem?.mpr ⟨j, hm⟩)
          have hb := hinv old (List.mem_iff_getElem?.mpr ⟨i, hold⟩)
          have h5 : pingInterval = 5 := rfl
          have hM : maxPingSince = 9999 := rfl
          simp only [hm, Option.map_some', Option.some.injEq, Functor.map] at hj
          by_cases hij : i = j
          · simp only [hij, if_true] at hj
            rw [← hj]
            cases online with
            | true => simp
            | false =>
              simp only [Bool.false_eq_true, if_false]
              split <;> omega
          · simp only [hij, if_false] at hj
            rw [← hj]
            exact ha
      · have hge1 : (m.servers.length : Int) ≤ (i : Int) := by exact_mod_cast hge
        rw [Update_ping_stale huh m i online hge1] at hstep
        simp only [Except.ok.injEq, Prod.mk.injEq] at hstep
        rw [← hstep.1]
        exact hinv
  | KeyMsg key =>
    cases hmode : m.mode with
    | modeViewing =>
      simp only [Update, hmode] at hstep
      split at hstep
      · simp only [Except.ok.injEq, Prod.mk.injEq] at hstep
        rw [← hstep.1]
        exact hinv
      · split at hstep <;>
        · simp only [Except.ok.injEq, Prod.mk.injEq] at hstep
          rw [← hstep.1]
          exact hinv
    | modeAdding =>
      simp only [Update, hmode] at hstep
      split at hstep <;>
      · simp only [Except.ok.injEq, Prod.mk.injEq] at hstep
        rw [← hstep.1]
        intro srv hsrv
        simp only [List.mem_append, List.mem_singleton] at hsrv
        first
          | exact hinv srv hsrv
          | (rcases hsrv with h | h
             · exact hinv srv h
             · rw [h]; simp)
  | otherMsg tag =>
    cases hmode : m.mode with
    | modeViewing =>
      simp only [Update, hmode, Except.ok.injEq, Prod.mk.injEq] at hstep
      rw [← hstep.1]
      exact hinv
    | modeAdding =>
      simp only [Update, hmode] at hstep
      split at hstep <;>
      · simp only [Except.ok.injEq, Prod.mk.injEq] at hstep
        rw [← hstep.1]
        intro srv hsrv
        simp only [List.mem_append, List.mem_singleton] at hsrv
        first
          | exact hinv srv hsrv
          | (rcases hsrv with h | h
             · exact hinv srv h
             · rw [h]; simp)

/-- In every reachable state every counter is a multiple of `pingInterval`
between `0` and `10000`: never negative, and never more than one step above
`maxPingSince`. -/
theorem reachable_counter_bounds (m : model) (hreach : Reachable m) :
    ∀ srv ∈ m.servers, 0 ≤ srv.pingSinceSeconds ∧ srv.pingSinceSeconds ≤ 10000 ∧
      srv.pingSinceSeconds % 5 = 0 := by
  obtain ⟨events, hrun⟩ := hreach
  have hgen : ∀ (evs : List (FormStep × Msg)) (a b : model),
      (∀ srv ∈ a.servers, 0 ≤ srv.pingSinceSeconds ∧ srv.pingSinceSeconds ≤ 10000 ∧
        srv.pingSinceSeconds % 5 = 0) →
      run a evs = Except.ok b →
      ∀ srv ∈ b.servers, 0 ≤ srv.pingSinceSeconds ∧ srv.pingSinceSeconds ≤ 10000 ∧
        srv.pingSinceSeconds % 5 = 0 := by
    intro evs
    induction evs with
    | nil =>
      intro a b ha h
      simp only [run, Except.ok.injEq] at h
      rw [← h]
      exact ha
    | cons e rest ih =>
      intro a b ha h
      obtain ⟨huh, msg⟩ := e
      simp only [run] at h
      cases hU : Update huh a msg with
      | error err => simp [hU] at h
      | ok r =>
        obtain ⟨a1, c⟩ := r
        simp only [hU] at h
        exact ih a1 b (Update_counter_bounds huh a a1 msg c ha hU) h
  exact hgen events initialModel m (by intro srv hsrv; cases hsrv) hrun

end ServerMonitor
